import Mathlib

/-!
Verification of the Moneywright desktop shell's server-supervisor core
(`src/apps/desktop/src-tauri/src/server.rs` and `lib.rs`): the bounded
log store, the readiness detector, the status state machine around
`start_server` / `stop_server`, the port reaper, the `.env`
`DATABASE_URL` persistence, and the injected logs-window classifier.

Strings are modelled as Lean `String` (a wrapper around `List Char`);
Rust's `str` helpers (`trim`, `lines`, `contains`, `starts_with`,
`trim_start_matches`) are re-implemented below on `List Char` so that
every theorem can be evaluated by the kernel.
-/

/-- Predicate `headMatch p s` holds when `p` is an initial segment of `s`
(Rust `str::starts_with`). -/
def headMatch : List Char → List Char → Bool
  | [], _ => true
  | _ :: _, [] => false
  | a :: as, b :: bs => a == b && headMatch as bs

/-- Chars of `s` after the first occurrence of `needle`, if `needle`
occurs in `s` at all (drives Rust `str::contains` / `str::find`). -/
def afterSub (needle : List Char) : List Char → Option (List Char)
  | [] => if headMatch needle [] then some [] else none
  | c :: t =>
    if headMatch needle (c :: t) then some ((c :: t).drop needle.length)
    else afterSub needle t

/-- Rust `str::contains` for string patterns. -/
def strContains (s pat : String) : Bool := (afterSub pat.data s.data).isSome

/-- Rust `char::is_whitespace`: the Unicode White_Space property
(U+0009..U+000D, U+0020, U+0085, U+00A0, U+1680, U+2000..U+200A, U+2028,
U+2029, U+202F, U+205F, U+3000). -/
def rustIsWS (c : Char) : Bool :=
  (0x09 ≤ c.toNat && c.toNat ≤ 0x0D) || c.toNat = 0x20 || c.toNat = 0x85
    || c.toNat = 0xA0 || c.toNat = 0x1680
    || (0x2000 ≤ c.toNat && c.toNat ≤ 0x200A)
    || c.toNat = 0x2028 || c.toNat = 0x2029 || c.toNat = 0x202F
    || c.toNat = 0x205F || c.toNat = 0x3000

/-- Drop leading whitespace (in Rust's `char::is_whitespace` sense). -/
def dropWS : List Char → List Char
  | [] => []
  | c :: t => if rustIsWS c then dropWS t else c :: t

/-- Rust `str::trim`: whitespace removed from both ends. -/
def rustTrim (s : List Char) : List Char := dropWS ((dropWS s.reverse).reverse)

/-- Rust `str::trim` on `String`. -/
def strTrim (s : String) : String := ⟨rustTrim s.data⟩

/-! ## Log Store (`lib.rs`, `LogStore`) -/

/-- Constant `MAX_LOG_LINES` from `lib.rs`. -/
def MAX_LOG_LINES : Nat := 1000

/-- Struct `LogStore` with `logs: Vec<String>` from `lib.rs`. -/
structure LogStore where
  logs : List String
deriving DecidableEq

/-- Constructor `LogStore::new`. -/
def LogStore.new : LogStore := ⟨[]⟩

/-- Method `LogStore::add`: push, then `remove(0)` once if the length exceeds
`MAX_LOG_LINES`. -/
def LogStore.add (s : LogStore) (message : String) : LogStore :=
  let l := s.logs ++ [message]
  if l.length > MAX_LOG_LINES then ⟨l.drop 1⟩ else ⟨l⟩

/-- Method `LogStore::get_all`: snapshot of the buffer, oldest first. -/
def LogStore.get_all (s : LogStore) : List String := s.logs

/-- Method `LogStore::clear`. -/
def LogStore.clear (_ : LogStore) : LogStore := ⟨[]⟩

/-- Run a sequence of `add` calls on an initially empty store. -/
def runAdds (msgs : List String) : LogStore := msgs.foldl LogStore.add LogStore.new

theorem logStore_add_logs (s : LogStore) (m : String) :
    (s.add m).logs =
      if (s.logs ++ [m]).length > MAX_LOG_LINES
      then (s.logs ++ [m]).drop 1 else s.logs ++ [m] := by
  simp only [LogStore.add]
  split <;> rfl

theorem foldl_add_characterization (msgs : List String) :
    ∀ s : LogStore, s.logs.length ≤ MAX_LOG_LINES →
      (List.foldl LogStore.add s msgs).logs =
        (s.logs ++ msgs).drop ((s.logs ++ msgs).length - MAX_LOG_LINES) := by
  induction msgs with
  | nil =>
    intro s hs
    simp [Nat.sub_eq_zero_of_le, hs]
  | cons m rest ih =>
    intro s hs
    rw [List.foldl_cons]
    have hone : ([m] : List String).length = 1 := rfl
    by_cases hlen : s.logs.length + 1 ≤ MAX_LOG_LINES
    · have hlt : ¬ (s.logs ++ [m]).length > MAX_LOG_LINES := by
        rw [List.length_append, hone]; omega
      have hadd : (s.add m).logs = s.logs ++ [m] := by
        rw [logStore_add_logs, if_neg hlt]
      have hle2 : (s.add m).logs.length ≤ MAX_LOG_LINES := by
        rw [hadd, List.length_append, hone]; omega
      rw [ih (s.add m) hle2, hadd]
      simp [List.append_assoc]
    · have hsl : s.logs.length = MAX_LOG_LINES := by omega
      obtain ⟨a, tl, hstl⟩ : ∃ a tl, s.logs = a :: tl := by
        cases hcs : s.logs with
        | nil => rw [hcs] at hsl; simp [MAX_LOG_LINES] at hsl
        | cons a tl => exact ⟨a, tl, rfl⟩
      have h1 : tl.length + 1 = MAX_LOG_LINES := by
        rw [hstl] at hsl; simpa using hsl
      have hgt : (s.logs ++ [m]).length > MAX_LOG_LINES := by
        rw [List.length_append, hone]; omega
      have hadd : (s.add m).logs = tl ++ [m] := by
        rw [logStore_add_logs, if_pos hgt, hstl, List.cons_append,
          List.drop_succ_cons, List.drop_zero]
      have hle2 : (s.add m).logs.length ≤ MAX_LOG_LINES := by
        rw [hadd, List.length_append, hone]; omega
      rw [ih (s.add m) hle2, hadd, hstl]
      have e1 : ((tl ++ [m]) ++ rest).length - MAX_LOG_LINES = rest.length := by
        rw [List.length_append, List.length_append, hone]; omega
      have e2 : ((a :: tl) ++ m :: rest).length - MAX_LOG_LINES = rest.length + 1 := by
        rw [List.length_append, List.length_cons, List.length_cons]; omega
      rw [e1, e2, List.cons_append, List.drop_succ_cons, List.append_assoc,
        List.singleton_append]

theorem runAdds_logs (msgs : List String) :
    (runAdds msgs).logs = msgs.drop (msgs.length - MAX_LOG_LINES) := by
  have := foldl_add_characterization msgs LogStore.new (by simp [LogStore.new])
  simpa [runAdds, LogStore.new] using this

/-- Claim C1: starting from an empty `LogStore`, after `N > 1000` calls to
`add`, `get_all` returns exactly the last 1000 added lines, in call order,
with length exactly 1000; and after every sequence of `add` calls the
store's size is at most 1000. -/
theorem c1_log_store_cap (msgs : List String) (h : msgs.length > 1000) :
    (runAdds msgs).get_all = msgs.drop (msgs.length - 1000)
    ∧ (runAdds msgs).get_all.length = 1000
    ∧ ∀ prev : List String, (runAdds prev).get_all.length ≤ 1000 := by
  have hcap : MAX_LOG_LINES = 1000 := rfl
  refine ⟨by rw [← hcap]; exact runAdds_logs msgs, ?_, ?_⟩
  · rw [LogStore.get_all, runAdds_logs, List.length_drop, hcap]
    omega
  · intro prev
    rw [LogStore.get_all, runAdds_logs, List.length_drop, hcap]
    omega

/-- Witness for C1 at a concrete 1001-element input. -/
theorem c1_log_store_cap_witness :
    (List.replicate 1001 "x").length > 1000
    ∧ ((runAdds (List.replicate 1001 "x")).get_all
        = (List.replicate 1001 "x").drop ((List.replicate 1001 "x").length - 1000)
      ∧ (runAdds (List.replicate 1001 "x")).get_all.length = 1000
      ∧ ∀ prev : List String, (runAdds prev).get_all.length ≤ 1000) :=
  ⟨by rw [List.length_replicate]; omega,
   c1_log_store_cap (List.replicate 1001 "x") (by rw [List.length_replicate]; omega)⟩

/-! ## Server status and manager (`server.rs`) -/

/-- Constant `SERVER_PORT` from `server.rs`. -/
def SERVER_PORT : Nat := 17777

/-- Constant `STARTUP_TIMEOUT` from `server.rs`, in seconds. -/
def STARTUP_TIMEOUT : Nat := 30

/-- The `enum ServerStatus` from `server.rs`. -/
inductive ServerStatus
  | Starting
  | Running
  | Stopped
  | Error (msg : String)
deriving DecidableEq

/-- The `struct ServerManager` from `server.rs`: the child handle is an opaque
process identifier, the data directory a path string. -/
structure ServerManager where
  child : Option Nat
  status : ServerStatus
  data_dir : String
deriving DecidableEq

/-- Constructor `ServerManager::new`. -/
def ServerManager.new (data_dir : String) : ServerManager :=
  ⟨none, ServerStatus.Stopped, data_dir⟩

/-- Method `ServerManager::is_running`: `matches!(self.status, ServerStatus::Running)`. -/
def ServerManager.is_running (m : ServerManager) : Bool :=
  match m.status with
  | ServerStatus.Running => true
  | _ => false

/-- Readiness detector applied to each trimmed stdout line
(`server.rs` line 376). -/
def serverReady (line : String) : Bool :=
  strContains line "Listening on" || strContains line "Server running"
    || strContains line "Server is running"

/-- Events `CommandEvent` from the shell plugin, restricted to the variants the
relay task matches on. -/
inductive CommandEvent
  | Stdout (line : String)
  | Stderr (line : String)
  | Terminated (code : Option Int)
  | Other

/-- One step of the stdout/stderr relay task spawned by `start_server`
(`server.rs` lines 364-415); frontend emits are elided, log-store writes
are kept.  The `Terminated` arm mirrors lines 391-411: nonzero code sets
`Error`, zero or absent code sets `Stopped`, and the child handle is
cleared in every case. -/
def handleEvent (st : ServerManager × LogStore) (ev : CommandEvent) :
    ServerManager × LogStore :=
  match ev with
  | CommandEvent.Stdout line =>
    let line_str := strTrim line
    if line_str = "" then st
    else
      let store := st.2.add ("[moneywright] " ++ line_str)
      if serverReady line_str then ({ st.1 with status := ServerStatus.Running }, store)
      else (st.1, store)
  | CommandEvent.Stderr line =>
    let line_str := strTrim line
    if line_str = "" then st
    else (st.1, st.2.add ("[moneywright:err] " ++ line_str))
  | CommandEvent.Terminated code =>
    match code with
    | some c =>
      if c ≠ 0 then
        let msg := "Server exited with code " ++ toString c
        ({ st.1 with status := ServerStatus.Error msg, child := none }, st.2.add msg)
      else
        ({ st.1 with status := ServerStatus.Stopped, child := none },
          st.2.add "Server stopped")
    | none =>
      ({ st.1 with status := ServerStatus.Stopped, child := none },
        st.2.add "Server terminated")
  | CommandEvent.Other => st

/-- The relay task's event loop: process events in order, and stop after a
`Terminated` event (the `break` in `server.rs` line 410). -/
def relayRun (st : ServerManager × LogStore) : List CommandEvent → ServerManager × LogStore
  | [] => st
  | ev :: rest =>
    match ev with
    | CommandEvent.Terminated c => handleEvent st (CommandEvent.Terminated c)
    | _ => relayRun (handleEvent st ev) rest

/-- The readiness polling loop at the end of `start_server` (`server.rs`
lines 418-434).  The list holds the statuses observed at the successive
100ms polls; exhausting it models the `STARTUP_TIMEOUT` (30s) budget
elapsing, upon which the loop returns the timeout error without touching
the manager or the child. -/
def pollObserve : List ServerStatus → Except String Unit
  | [] => Except.error "Server startup timed out"
  | s :: rest =>
    match s with
    | ServerStatus.Running => Except.ok ()
    | ServerStatus.Error e => Except.error e
    | ServerStatus.Stopped => Except.error "Server stopped unexpectedly"
    | ServerStatus.Starting => pollObserve rest

/-! ## `.env` database-url persistence (`server.rs` lines 230-282)

The filesystem is modelled as the optional content of `<data_dir>/.env`:
`none` when the file does not exist. -/

/-- Split at every newline character (the segments of Rust `str::lines`
before end-of-line cleanup). -/
def splitNl : List Char → List (List Char)
  | [] => [[]]
  | c :: t =>
    let r := splitNl t
    if c = '\n' then [] :: r
    else
      match r with
      | [] => [[c]]
      | h :: rest => (c :: h) :: rest

/-- Join with newlines (Rust `Vec::join("\n")`). -/
def joinNl : List (List Char) → List Char
  | [] => []
  | [x] => x
  | x :: xs => x ++ '\n' :: joinNl xs

/-- Remove a final carriage return (Rust `str::lines` strips `\r\n`). -/
def stripCR (l : List Char) : List Char :=
  match l.getLast? with
  | some c => if c = '\r' then l.dropLast else l
  | none => l

/-- Apply `f` to every element but the last. -/
def mapInit (f : List Char → List Char) : List (List Char) → List (List Char)
  | [] => []
  | [x] => [x]
  | x :: xs => f x :: mapInit f xs

/-- Rust `str::lines`: split at `\n`, strip a `\r` preceding each split
point, and yield no final empty line when the string ends with `\n`. -/
def rustLines (s : List Char) : List (List Char) :=
  let parts := splitNl s
  match parts.getLast? with
  | some [] => parts.dropLast.map stripCR
  | _ => mapInit stripCR parts

/-- The `"DATABASE_URL="` key as a character pattern. -/
def dbKey : List Char := "DATABASE_URL=".data

theorem headMatch_length (p s : List Char) (h : headMatch p s = true) :
    p.length ≤ s.length := by
  induction p generalizing s with
  | nil => simp
  | cons a as ih =>
    cases s with
    | nil => simp [headMatch] at h
    | cons b bs =>
      simp only [headMatch, Bool.and_eq_true] at h
      simpa using ih bs h.2

/-- Strip loop of Rust `str::trim_start_matches`: each iteration removes
one leading occurrence of the nonempty pattern; the fuel bounds the
number of iterations (each strip removes at least one character, so
`s.length` iterations always suffice). -/
def stripLoop (p : List Char) : Nat → List Char → List Char
  | 0, s => s
  | fuel + 1, s =>
    if p ≠ [] ∧ headMatch p s = true then stripLoop p fuel (s.drop p.length) else s

/-- Rust `str::trim_start_matches`: remove every leading occurrence of
the pattern. -/
def trimStartMatches (p : List Char) (s : List Char) : List Char :=
  stripLoop p s.length s

/-- The loop body of `read_database_url` (`server.rs` lines 237-242):
first line whose trimmed form starts with `DATABASE_URL=` wins. -/
def findDbLine : List (List Char) → Option String
  | [] => none
  | l :: rest =>
    let t := rustTrim l
    if headMatch dbKey t then some ⟨trimStartMatches dbKey t⟩
    else findDbLine rest

/-- Function `read_database_url` (`server.rs` lines 230-245); `env` is the `.env`
file content, or `none` when the file does not exist. -/
def read_database_url (env : Option String) : Option String :=
  match env with
  | none => none
  | some content => findDbLine (rustLines content.data)

/-- The `"# PostgreSQL database URL"` comment line from `write_database_url`. -/
def dbComment : List Char := "# PostgreSQL database URL".data

/-- Function `write_database_url` (`server.rs` lines 248-282), returning the new
`.env` content. -/
def write_database_url (env : Option String) (database_url : String) : String :=
  match env with
  | some existing =>
    let lines := rustLines existing.data
    let found := lines.any (fun l => headMatch dbKey (rustTrim l))
    if found then
      ⟨joinNl (lines.map (fun l =>
        if headMatch dbKey (rustTrim l) then dbKey ++ database_url.data else l))⟩
    else
      ⟨rustTrim existing.data ++ ('\n' :: '\n' :: dbComment)
        ++ ('\n' :: (dbKey ++ database_url.data))⟩
  | none => ⟨dbComment ++ '\n' :: (dbKey ++ database_url.data)⟩

/-! ## `start_server` / `stop_server` (`server.rs` lines 298-454) -/

/-- Result of the synchronous part of `start_server` up to the spawn
(`server.rs` lines 303-358): `res` is `some r` when the call returns `r`
right away, `state`/`store` are the manager and log store afterwards, and
`spawned` records whether a sidecar process was spawned. -/
structure StartRet where
  res : Option (Except String Unit)
  state : ServerManager
  store : LogStore
  spawned : Bool

/-- The synchronous prefix of `start_server` (`server.rs` lines 303-358):
early return when already running; set status to `Starting`; reap the
port (result only logged); resolve the database URL from `.env` (logged);
then spawn, whose outcome is `spawnRes`.  Frontend emits and the
resource-path environment wiring are elided. -/
def start_server_sync (m : ServerManager) (ls : LogStore) (envFile : Option String)
    (spawnRes : Except String Nat) : StartRet :=
  if m.is_running then ⟨some (Except.ok ()), m, ls, false⟩
  else
    let m1 := { m with status := ServerStatus.Starting }
    let ls1 := match read_database_url envFile with
      | some _ => ls.add "Using PostgreSQL database"
      | none => ls.add "Using SQLite database"
    match spawnRes with
    | Except.error e =>
      ⟨some (Except.error ("Failed to spawn sidecar: " ++ e)), m1, ls1, false⟩
    | Except.ok child => ⟨none, { m1 with child := some child }, ls1, true⟩

/-- Function `stop_server` (`server.rs` lines 438-454): take and kill the child
handle if present (`childKill` is the discarded kill result), reap the
port (`portKill` is the reaper result, only logged on error), then force
status to `Stopped` and return `Ok(())`. -/
def stop_server (m : ServerManager) (childKill portKill : Except String Unit) :
    (Except String Unit) × ServerManager :=
  let m1 := { m with child := none }
  (Except.ok (), { m1 with status := ServerStatus.Stopped })

theorem pollObserve_replicate (k : Nat) :
    pollObserve (List.replicate k ServerStatus.Starting)
      = Except.error "Server startup timed out" := by
  induction k with
  | zero => rfl
  | succ n ih => simpa [List.replicate_succ, pollObserve] using ih

theorem pollObserve_after_starting (k : Nat) (rest : List ServerStatus) :
    pollObserve (List.replicate k ServerStatus.Starting ++ rest) = pollObserve rest := by
  induction k with
  | zero => rfl
  | succ n ih => simpa [List.replicate_succ, pollObserve] using ih

theorem relay_stdout_preserves (m : ServerManager) (lines : List String) :
    ∀ ls : LogStore, (∀ l ∈ lines, serverReady (strTrim l) = false) →
      (relayRun (m, ls) (lines.map CommandEvent.Stdout)).1 = m := by
  induction lines with
  | nil => intro ls _; rfl
  | cons l rest ih =>
    intro ls hr
    have hl : serverReady (strTrim l) = false := hr l (by simp)
    have hrest : ∀ x ∈ rest, serverReady (strTrim x) = false :=
      fun x hx => hr x (by simp [hx])
    show (relayRun (handleEvent (m, ls) (CommandEvent.Stdout l))
        (rest.map CommandEvent.Stdout)).1 = m
    by_cases he : strTrim l = ""
    · rw [show handleEvent (m, ls) (CommandEvent.Stdout l) = (m, ls) by
        simp [handleEvent, he]]
      exact ih ls hrest
    · rw [show handleEvent (m, ls) (CommandEvent.Stdout l)
          = (m, ls.add ("[moneywright] " ++ strTrim l)) by
        simp [handleEvent, he, hl]]
      exact ih _ hrest

/-- Claim C2: when the child never prints a readiness phrase and never
exits (the relay sees only non-ready stdout lines), the readiness poll
exhausts its 30-second budget and `start_server` fails with the timeout
error, while the manager is untouched: the child handle is not cleared,
no kill is issued, and the status remains `Starting`. -/
theorem c2_startup_timeout (m : ServerManager) (ls : LogStore)
    (lines : List String) (k : Nat)
    (hm : m.status = ServerStatus.Starting)
    (hr : ∀ l ∈ lines, serverReady (strTrim l) = false) :
    pollObserve (List.replicate k ServerStatus.Starting)
      = Except.error "Server startup timed out"
    ∧ (relayRun (m, ls) (lines.map CommandEvent.Stdout)).1 = m
    ∧ (relayRun (m, ls) (lines.map CommandEvent.Stdout)).1.status = ServerStatus.Starting
    ∧ (relayRun (m, ls) (lines.map CommandEvent.Stdout)).1.child = m.child := by
  have h2 := relay_stdout_preserves m lines ls hr
  exact ⟨pollObserve_replicate k, h2, by rw [h2, hm], by rw [h2]⟩

/-- Witness for C2 at a concrete manager and a concrete non-ready line. -/
theorem c2_startup_timeout_witness :
    pollObserve (List.replicate 3 ServerStatus.Starting)
      = Except.error "Server startup timed out"
    ∧ (relayRun ((⟨some 7, ServerStatus.Starting, "/data"⟩ : ServerManager),
          (⟨[]⟩ : LogStore)) (["connecting to database..."].map CommandEvent.Stdout)).1
        = (⟨some 7, ServerStatus.Starting, "/data"⟩ : ServerManager)
    ∧ (relayRun ((⟨some 7, ServerStatus.Starting, "/data"⟩ : ServerManager),
          (⟨[]⟩ : LogStore)) (["connecting to database..."].map CommandEvent.Stdout)).1.status
        = ServerStatus.Starting
    ∧ (relayRun ((⟨some 7, ServerStatus.Starting, "/data"⟩ : ServerManager),
          (⟨[]⟩ : LogStore)) (["connecting to database..."].map CommandEvent.Stdout)).1.child
        = (⟨some 7, ServerStatus.Starting, "/data"⟩ : ServerManager).child :=
  c2_startup_timeout ⟨some 7, ServerStatus.Starting, "/data"⟩ ⟨[]⟩
    ["connecting to database..."] 3 rfl (by decide)

/-- Claim C3: processing the child-terminated event clears the stored
child handle in every case; a nonzero exit code sets
`Error("Server exited with code <c>")` and an in-flight `start_server`
poll then fails with exactly that message; a zero or absent exit code
sets `Stopped`. -/
theorem c3_child_terminated (m : ServerManager) (ls : LogStore) (c : Int) (k : Nat) :
    (handleEvent (m, ls) (CommandEvent.Terminated (some c))).1.child = none
    ∧ (handleEvent (m, ls) (CommandEvent.Terminated none)).1.child = none
    ∧ (handleEvent (m, ls) (CommandEvent.Terminated none)).1.status = ServerStatus.Stopped
    ∧ (c = 0 →
        (handleEvent (m, ls) (CommandEvent.Terminated (some c))).1.status
          = ServerStatus.Stopped)
    ∧ (c ≠ 0 →
        (handleEvent (m, ls) (CommandEvent.Terminated (some c))).1.status
          = ServerStatus.Error ("Server exited with code " ++ toString c)
        ∧ pollObserve (List.replicate k ServerStatus.Starting
            ++ [ServerStatus.Error ("Server exited with code " ++ toString c)])
          = Except.error ("Server exited with code " ++ toString c)) := by
  refine ⟨?_, by simp [handleEvent], by simp [handleEvent], ?_, ?_⟩
  · by_cases hc : c = 0 <;> simp [handleEvent, hc]
  · intro hc; simp [handleEvent, hc]
  · intro hc
    refine ⟨by simp [handleEvent, hc], ?_⟩
    rw [pollObserve_after_starting]
    rfl

/-- Witness for C3 at exit code 1. -/
theorem c3_child_terminated_witness :
    ((1 : Int) ≠ 0)
    ∧ (handleEvent ((⟨some 9, ServerStatus.Running, "/d"⟩ : ServerManager),
          (⟨[]⟩ : LogStore)) (CommandEvent.Terminated (some 1))).1.child = none
    ∧ (handleEvent ((⟨some 9, ServerStatus.Running, "/d"⟩ : ServerManager),
          (⟨[]⟩ : LogStore)) (CommandEvent.Terminated (some 1))).1.status
        = ServerStatus.Error ("Server exited with code " ++ toString (1 : Int))
    ∧ pollObserve (List.replicate 2 ServerStatus.Starting
          ++ [ServerStatus.Error ("Server exited with code " ++ toString (1 : Int))])
        = Except.error ("Server exited with code " ++ toString (1 : Int)) := by
  refine ⟨by decide, (c3_child_terminated ⟨some 9, ServerStatus.Running, "/d"⟩ ⟨[]⟩ 1 2).1,
    ((c3_child_terminated ⟨some 9, ServerStatus.Running, "/d"⟩ ⟨[]⟩ 1 2).2.2.2.2
      (by decide)).1,
    ((c3_child_terminated ⟨some 9, ServerStatus.Running, "/d"⟩ ⟨[]⟩ 1 2).2.2.2.2
      (by decide)).2⟩

/-- Claim C4: `stop_server` always returns `Ok(())` and forces the status
to `Stopped`, clearing the child handle (a no-op when it was absent) and
preserving the data directory; neither the child-kill result nor the
port-reaper result is propagated. -/
theorem c4_stop_always_succeeds (m : ServerManager)
    (childKill portKill : Except String Unit) :
    stop_server m childKill portKill
      = (Except.ok (), { m with child := none, status := ServerStatus.Stopped }) := rfl

/-- Claim C5: `start_server` on a manager whose status is `Running`
returns `Ok(())` immediately, spawns nothing, and leaves the manager
(status, child handle, data directory) and the log store unchanged. -/
theorem c5_start_running_noop (m : ServerManager) (ls : LogStore)
    (env : Option String) (sp : Except String Nat)
    (h : m.status = ServerStatus.Running) :
    start_server_sync m ls env sp = ⟨some (Except.ok ()), m, ls, false⟩ := by
  have hr : m.is_running = true := by simp [ServerManager.is_running, h]
  simp [start_server_sync, hr]

/-- Witness for C5 at a concrete running manager. -/
theorem c5_start_running_noop_witness :
    ((⟨some 3, ServerStatus.Running, "/d"⟩ : ServerManager).status = ServerStatus.Running)
    ∧ start_server_sync ⟨some 3, ServerStatus.Running, "/d"⟩ ⟨[]⟩ none (Except.ok 4)
        = ⟨some (Except.ok ()), ⟨some 3, ServerStatus.Running, "/d"⟩, ⟨[]⟩, false⟩ :=
  ⟨rfl, c5_start_running_noop ⟨some 3, ServerStatus.Running, "/d"⟩ ⟨[]⟩ none
    (Except.ok 4) rfl⟩

/-- Claim C10: when the spawn fails, `start_server` returns the
descriptive spawn error, but the status — already set to `Starting` —
is left at `Starting` (not `Error` or `Stopped`), no child handle is
stored (the child field is untouched), and no process was spawned, so
every subsequent `status()` read reports `Starting`. -/
theorem c10_spawn_failure (m : ServerManager) (ls : LogStore)
    (env : Option String) (e : String)
    (h : m.is_running = false) :
    (start_server_sync m ls env (Except.error e)).res
        = some (Except.error ("Failed to spawn sidecar: " ++ e))
    ∧ (start_server_sync m ls env (Except.error e)).state.status = ServerStatus.Starting
    ∧ (start_server_sync m ls env (Except.error e)).state.child = m.child
    ∧ (start_server_sync m ls env (Except.error e)).state.data_dir = m.data_dir
    ∧ (start_server_sync m ls env (Except.error e)).spawned = false := by
  simp [start_server_sync, h]

/-- Witness for C10 at a freshly constructed (stopped) manager. -/
theorem c10_spawn_failure_witness :
    ((ServerManager.new "/d").is_running = false)
    ∧ (start_server_sync (ServerManager.new "/d") ⟨[]⟩ none
        (Except.error "program not found")).res
        = some (Except.error ("Failed to spawn sidecar: " ++ "program not found"))
    ∧ (start_server_sync (ServerManager.new "/d") ⟨[]⟩ none
        (Except.error "program not found")).state.status = ServerStatus.Starting
    ∧ (start_server_sync (ServerManager.new "/d") ⟨[]⟩ none
        (Except.error "program not found")).state.child = (ServerManager.new "/d").child
    ∧ (start_server_sync (ServerManager.new "/d") ⟨[]⟩ none
        (Except.error "program not found")).state.data_dir = (ServerManager.new "/d").data_dir
    ∧ (start_server_sync (ServerManager.new "/d") ⟨[]⟩ none
        (Except.error "program not found")).spawned = false :=
  ⟨rfl, c10_spawn_failure (ServerManager.new "/d") ⟨[]⟩ none "program not found" rfl⟩

/-- Claim C8: the readiness check is a pure predicate on a single stdout
line, true exactly when the line contains one of the fixed ready phrases;
in particular it accepts "Server is running on port 17777" and rejects
"connecting to database...". -/
theorem c8_readiness_detector :
    (∀ l : String, serverReady l
        = (strContains l "Listening on" || strContains l "Server running"
            || strContains l "Server is running"))
    ∧ serverReady "Server is running on port 17777" = true
    ∧ serverReady "connecting to database..." = false :=
  ⟨fun _ => rfl, by decide, by decide⟩

/-! ## Port reaper: `kill_process_on_port` (`server.rs` lines 40-124) -/

/-- The three `#[cfg(target_os = ...)]` paths of `kill_process_on_port`. -/
inductive Platform
  | macos
  | linux
  | windows

/-- Result of running the platform's discovery command: its exit-status
success flag and captured stdout. -/
structure CmdOutput where
  success : Bool
  stdout : String

/-- macOS pid extraction (`server.rs` lines 51-59): each nonempty trimmed
line of `lsof` stdout is a pid. -/
def macosPids (out : String) : List String :=
  (rustLines out.data).filterMap fun l =>
    let p := rustTrim l
    if p = [] then none else some ⟨p⟩

/-- Linux pid extraction (`server.rs` lines 75-89): after the first
`pid=` of each `ss` line, take the digits up to the first non-digit; a
line whose tail is all digits yields nothing (`find` returns `None`). -/
def linuxPids (out : String) : List String :=
  (rustLines out.data).filterMap fun line =>
    match afterSub "pid=".data line with
    | none => none
    | some rest =>
      match rest.findIdx? (fun c => !c.isDigit) with
      | none => none
      | some e =>
        let pid := rest.take e
        if pid = [] then none else some ⟨pid⟩

theorem dropWhile_length_le (p : Char → Bool) (l : List Char) :
    (l.dropWhile p).length ≤ l.length := by
  induction l with
  | nil => simp
  | cons a t ih =>
    by_cases hp : p a <;> simp [List.dropWhile_cons, hp] <;> omega

/-- Whitespace-separated words (Rust `str::split_whitespace`). -/
def wordsOf (s : List Char) : List (List Char) :=
  match s with
  | [] => []
  | c :: t =>
    if rustIsWS c then wordsOf t
    else (c :: t.takeWhile (fun d => !rustIsWS d))
      :: wordsOf (t.dropWhile (fun d => !rustIsWS d))
termination_by s.length
decreasing_by
  · simp_wf
  · simp_wf
    have := dropWhile_length_le (fun d => !rustIsWS d) t
    omega

/-- Rust `u32::from_str`: optional leading `+`, digits, value below `2^32`. -/
def parseU32 (s : List Char) : Option Nat :=
  let digits := match s with
    | '+' :: t => t
    | t => t
  match (⟨digits⟩ : String).toNat? with
  | none => none
  | some n => if n < 4294967296 then some n else none

/-- Windows pid extraction (`server.rs` lines 105-117): the last
whitespace-separated token of each `netstat` line, when it parses as a
positive `u32`. -/
def windowsPids (out : String) : List String :=
  (rustLines out.data).filterMap fun line =>
    match (wordsOf line).getLast? with
    | none => none
    | some p =>
      match parseU32 p with
      | none => none
      | some n => if n > 0 then some (⟨p⟩ : String) else none

/-- Function `kill_process_on_port` (`server.rs` lines 40-124): `discover` is the
outcome of running the platform's listener-discovery command (`lsof`,
`ss`, or `netstat`); the returned list holds the pids passed to the kill
command (whose own results the code discards).  On macOS and Windows a
failure to run the discovery command is propagated with `map_err(..)?`;
on Linux it is silently treated as nothing found. -/
def kill_process_on_port (plat : Platform) (port : Nat)
    (discover : Except String CmdOutput) : (Except String Unit) × List String :=
  match plat with
  | Platform.macos =>
    match discover with
    | Except.error e => (Except.error ("Failed to run lsof: " ++ e), [])
    | Except.ok out =>
      if out.success then (Except.ok (), macosPids out.stdout) else (Except.ok (), [])
  | Platform.linux =>
    match discover with
    | Except.error _ => (Except.ok (), [])
    | Except.ok out =>
      if out.success then (Except.ok (), linuxPids out.stdout) else (Except.ok (), [])
  | Platform.windows =>
    match discover with
    | Except.error e => (Except.error ("Failed to run netstat: " ++ e), [])
    | Except.ok out =>
      if out.success then (Except.ok (), windowsPids out.stdout) else (Except.ok (), [])

/-- Counterexample for C6: on macOS a failure to run `lsof` is propagated
by `map_err(..)?` as a hard error, not treated as "nothing found". -/
theorem c6_counterexample :
    (kill_process_on_port Platform.macos SERVER_PORT
        (Except.error "No such file or directory")).1
      = Except.error ("Failed to run lsof: " ++ "No such file or directory")
    ∧ (kill_process_on_port Platform.macos SERVER_PORT
        (Except.error "No such file or directory")).1 ≠ Except.ok () :=
  ⟨rfl, fun h => Except.noConfusion h⟩

/-- Claim C6 (amended): only on Linux is a failure to run the discovery
command swallowed and success returned with nothing killed; on macOS and
Windows such a failure is propagated as an error.  On every platform a
discovery command that runs but exits unsuccessfully is treated as
nothing found and `kill_process_on_port` returns success. -/
theorem c6_reaper_discovery (port : Nat) (e : String) (out : CmdOutput)
    (plat : Platform) (h : out.success = false) :
    kill_process_on_port Platform.linux port (Except.error e) = (Except.ok (), [])
    ∧ kill_process_on_port plat port (Except.ok out) = (Except.ok (), [])
    ∧ (kill_process_on_port Platform.macos port (Except.error e)).1
        = Except.error ("Failed to run lsof: " ++ e)
    ∧ (kill_process_on_port Platform.windows port (Except.error e)).1
        = Except.error ("Failed to run netstat: " ++ e) := by
  refine ⟨rfl, ?_, rfl, rfl⟩
  cases plat <;> simp [kill_process_on_port, h]

/-- Witness for C6 (amended) at the server port with a failed discovery
run and an unsuccessful discovery exit. -/
theorem c6_reaper_discovery_witness :
    (CmdOutput.mk false "").success = false
    ∧ (kill_process_on_port Platform.linux SERVER_PORT (Except.error "boom")
        = (Except.ok (), [])
      ∧ kill_process_on_port Platform.macos SERVER_PORT
          (Except.ok (CmdOutput.mk false "")) = (Except.ok (), [])
      ∧ (kill_process_on_port Platform.macos SERVER_PORT (Except.error "boom")).1
          = Except.error ("Failed to run lsof: " ++ "boom")
      ∧ (kill_process_on_port Platform.windows SERVER_PORT (Except.error "boom")).1
          = Except.error ("Failed to run netstat: " ++ "boom")) :=
  ⟨rfl, c6_reaper_discovery SERVER_PORT "boom" ⟨false, ""⟩ Platform.macos rfl⟩

/-! ## Log classifier: `classifyLog` in the injected logs-window script
(`lib.rs` lines 409-450) -/

/-- JavaScript `String.prototype.toLowerCase` (ASCII range). -/
def toLowerStr (s : String) : String := ⟨s.data.map Char.toLower⟩

/-- Case-insensitive initial-segment match: the pattern is given in
lowercase and each subject character is lowered before comparison. -/
def headMatchCI : List Char → List Char → Bool
  | [], _ => true
  | _ :: _, [] => false
  | a :: as, b :: bs => a == b.toLower && headMatchCI as bs

/-- JavaScript regex word character `\w`: `[A-Za-z0-9_]`. -/
def isWordChar (c : Char) : Bool := c.isAlphanum || c == '_'

/-- Regex test `/\d+\s*success/i.test(log)`: some position starts a run of digits
followed by optional whitespace and then `success` (case-insensitive).
Greedy digit consumption is equivalent here because `success` starts
with a non-digit, non-space character. -/
def hasDigitsSuccess : List Char → Bool
  | [] => false
  | c :: t =>
    (c.isDigit
      && headMatchCI "success".data
          ((t.dropWhile Char.isDigit).dropWhile Char.isWhitespace))
    || hasDigitsSuccess t

/-- Scanner for `/\b0\s+failed\b/i`: `prev` is the character before the
current position (none at the start of the string). -/
def zeroFailedGo (prev : Option Char) : List Char → Bool
  | [] => false
  | c :: t =>
    ((c == '0')
      && (match prev with
          | none => true
          | some p => !isWordChar p)
      && !(t.takeWhile Char.isWhitespace).isEmpty
      && headMatchCI "failed".data (t.dropWhile Char.isWhitespace)
      && (match ((t.dropWhile Char.isWhitespace).drop 6).head? with
          | none => true
          | some d => !isWordChar d))
    || zeroFailedGo (some c) t

/-- Regex test `/\b0\s+failed\b/i.test(log)`. -/
def hasZeroFailed (l : List Char) : Bool := zeroFailedGo none l

/-- Scanner for `/\b<pat>/i` where `pat` is a lowercase pattern starting
with a word character (used for `error:` and `warning:`). -/
def wordPatGo (pat : List Char) (prev : Option Char) : List Char → Bool
  | [] => false
  | c :: t =>
    ((match prev with
      | none => true
      | some p => !isWordChar p)
      && headMatchCI pat (c :: t))
    || wordPatGo pat (some c) t

/-- Regex test `/\b<pat>/i.test(log)` for a lowercase pattern starting with a word
character. -/
def hasWordPat (pat : List Char) (l : List Char) : Bool := wordPatGo pat none l

/-- Function `classifyLog` from the injected logs-window script (`lib.rs` lines
409-450): explicit level markers first, then success phrases (the numeric
one also demanding `complete`), then `failed` excluding `0 failed`, then
other error phrases, then warning phrases, then the `[moneywright]`
server marker, else the neutral default `''`. -/
def classifyLog (log : String) : String :=
  let lower := toLowerStr log
  if strContains lower "[error]" || strContains lower ":err]"
      || strContains lower "[err]" then "error"
  else if strContains lower "[warn]" || strContains lower "[warning]" then "warning"
  else if hasDigitsSuccess log.data && strContains lower "complete" then "success"
  else if strContains lower "server is running" || strContains lower "migrations completed"
      || strContains lower "started successfully" || strContains lower "succeeded" then
    "success"
  else if strContains lower "failed" && !hasZeroFailed log.data then "error"
  else if hasWordPat "error:".data log.data || strContains lower "exception"
      || strContains lower "crash" then "error"
  else if hasWordPat "warning:".data log.data || strContains lower "deprecated" then
    "warning"
  else if strContains log "[moneywright]" then "server"
  else ""

/-- Counterexample for C7: the migration-summary line is not classified
as `success`. -/
theorem c7_counterexample :
    classifyLog "Migration: 12 success, 0 failed" ≠ "success" := by decide

/-- Claim C7 (amended): the line `"Migration: 12 success, 0 failed"` is
assigned the neutral default category `''` — not `error`, because the
`0 failed` exclusion outranks the generic `failed` match (a nonzero
failure count such as `"Migration: 12 success, 1 failed"` is classified
`error`) — but not `success` either, since the numeric success rule also
requires the word `complete` and no other success phrase matches. -/
theorem c7_classify_migration_line :
    classifyLog "Migration: 12 success, 0 failed" = ""
    ∧ classifyLog "Migration: 12 success, 0 failed" ≠ "error"
    ∧ classifyLog "Migration: 12 success, 1 failed" = "error" := by
  refine ⟨by decide, ?_, by decide⟩
  intro h
  rw [show classifyLog "Migration: 12 success, 0 failed" = "" from by decide] at h
  exact absurd h (by decide)

/-! ## Lemmas about the line/trim primitives, for claim C9 -/

theorem getLast?_mem_list {α : Type} {l : List α} {a : α}
    (h : l.getLast? = some a) : a ∈ l := by
  cases hl : l with
  | nil => rw [hl] at h; simp at h
  | cons x t =>
    have hne : l ≠ [] := by rw [hl]; simp
    rw [List.getLast?_eq_getLast l hne] at h
    have := List.getLast_mem hne
    rw [Option.some_inj.mp h] at this
    rw [← hl]
    exact this

theorem headMatch_append_self (p r : List Char) : headMatch p (p ++ r) = true := by
  induction p with
  | nil => rfl
  | cons a t ih => simp [headMatch, ih]

theorem stripLoop_no_match (p : List Char) (fuel : Nat) (s : List Char)
    (h : headMatch p s = false) : stripLoop p fuel s = s := by
  cases fuel with
  | zero => rfl
  | succ n =>
    rw [stripLoop, if_neg]
    intro hc
    rw [h] at hc
    exact Bool.noConfusion hc.2

theorem trimStartMatches_append (p r : List Char) (hp : p ≠ [])
    (hr : headMatch p r = false) : trimStartMatches p (p ++ r) = r := by
  unfold trimStartMatches
  have hplen : 0 < p.length := List.length_pos.mpr hp
  obtain ⟨n, hn⟩ : ∃ n, (p ++ r).length = n + 1 := by
    rw [List.length_append]
    exact ⟨p.length + r.length - 1, by omega⟩
  rw [hn, stripLoop, if_pos ⟨hp, headMatch_append_self p r⟩, List.drop_left]
  exact stripLoop_no_match p n r hr

theorem dropWS_eq_self_of_head (s : List Char)
    (h : ∀ c, s.head? = some c → rustIsWS c = false) : dropWS s = s := by
  cases s with
  | nil => rfl
  | cons c t => simp [dropWS, h c rfl]

theorem dropWS_length_le (s : List Char) : (dropWS s).length ≤ s.length := by
  induction s with
  | nil => simp [dropWS]
  | cons c t ih =>
    by_cases hc : rustIsWS c <;> simp [dropWS, hc] <;> omega

theorem rustTrim_getLast_not_ws (s : List Char) (h : rustTrim s = s) :
    ∀ c, s.getLast? = some c → rustIsWS c = false := by
  intro c hc
  by_contra hws
  have hws' : rustIsWS c = true := by
    cases hb : rustIsWS c with
    | false => exact absurd hb hws
    | true => rfl
  have hrev : s.reverse.head? = some c := by rw [List.head?_reverse]; exact hc
  obtain ⟨t, ht⟩ : ∃ t, s.reverse = c :: t := by
    cases hr : s.reverse with
    | nil => rw [hr] at hrev; simp at hrev
    | cons d u =>
      rw [hr] at hrev
      simp at hrev
      exact ⟨u, by rw [hrev]⟩
  have h1 : (dropWS s.reverse).length ≤ t.length := by
    rw [ht, dropWS, if_pos hws']
    exact dropWS_length_le t
  have h2 : (rustTrim s).length ≤ t.length := by
    calc (rustTrim s).length ≤ ((dropWS s.reverse).reverse).length :=
          dropWS_length_le _
      _ = (dropWS s.reverse).length := by rw [List.length_reverse]
      _ ≤ t.length := h1
  have h3 : s.length = t.length + 1 := by
    have := congrArg List.length ht
    simpa using this
  rw [h] at h2
  omega

theorem splitNl_ne_nil (s : List Char) : splitNl s ≠ [] := by
  cases s with
  | nil => simp [splitNl]
  | cons c t =>
    simp only [splitNl]
    by_cases hc : c = '\n'
    · simp [hc]
    · simp only [hc, if_false]
      cases splitNl t <;> simp

theorem joinNl_splitNl (s : List Char) : joinNl (splitNl s) = s := by
  induction s with
  | nil => rfl
  | cons c t ih =>
    simp only [splitNl]
    by_cases hc : c = '\n'
    · rw [if_pos hc]
      have hne := splitNl_ne_nil t
      cases hs : splitNl t with
      | nil => exact absurd hs hne
      | cons h r =>
        rw [hs] at ih
        simp [joinNl, hc, ih]
    · rw [if_neg hc]
      have hne := splitNl_ne_nil t
      cases hs : splitNl t with
      | nil => exact absurd hs hne
      | cons h r =>
        rw [hs] at ih
        cases r with
        | nil => simp only [joinNl] at ih ⊢; rw [ih]
        | cons y ys => simp only [joinNl] at ih ⊢; rw [List.cons_append, ih]

theorem mem_splitNl_no_nl (s : List Char) :
    ∀ l ∈ splitNl s, '\n' ∉ l := by
  induction s with
  | nil => intro l hl; simp [splitNl] at hl; simp [hl]
  | cons c t ih =>
    intro l hl
    simp only [splitNl] at hl
    by_cases hc : c = '\n'
    · rw [if_pos hc] at hl
      rcases List.mem_cons.mp hl with h | h
      · simp [h]
      · exact ih l h
    · rw [if_neg hc] at hl
      have hne := splitNl_ne_nil t
      cases hs : splitNl t with
      | nil => exact absurd hs hne
      | cons h r =>
        rw [hs] at hl
        rcases List.mem_cons.mp hl with h1 | h1
        · subst h1
          intro hmem
          rcases List.mem_cons.mp hmem with h2 | h2
          · exact hc h2.symm
          · exact ih h (by rw [hs]; exact List.mem_cons_self h r) h2
        · exact ih l (by rw [hs]; exact List.mem_cons_of_mem h h1)

theorem mem_splitNl_subset (s : List Char) :
    ∀ l ∈ splitNl s, ∀ c ∈ l, c ∈ s := by
  induction s with
  | nil => intro l hl; simp [splitNl] at hl; simp [hl]
  | cons a t ih =>
    intro l hl c hcl
    simp only [splitNl] at hl
    by_cases ha : a = '\n'
    · rw [if_pos ha] at hl
      rcases List.mem_cons.mp hl with h | h
      · subst h; simp at hcl
      · exact List.mem_cons_of_mem a (ih l h c hcl)
    · rw [if_neg ha] at hl
      have hne := splitNl_ne_nil t
      cases hs : splitNl t with
      | nil => exact absurd hs hne
      | cons h r =>
        rw [hs] at hl
        rcases List.mem_cons.mp hl with h1 | h1
        · subst h1
          rcases List.mem_cons.mp hcl with h2 | h2
          · rw [h2]; exact List.mem_cons_self a t
          · exact List.mem_cons_of_mem a
              (ih h (by rw [hs]; exact List.mem_cons_self h r) c h2)
        · exact List.mem_cons_of_mem a
            (ih l (by rw [hs]; exact List.mem_cons_of_mem h h1) c hcl)

theorem splitNl_no_nl (s : List Char) (h : '\n' ∉ s) : splitNl s = [s] := by
  induction s with
  | nil => rfl
  | cons c t ih =>
    have hc : ¬ c = '\n' := fun he => h (by rw [he]; exact List.mem_cons_self _ _)
    have ht : '\n' ∉ t := fun hm => h (List.mem_cons_of_mem c hm)
    simp only [splitNl, if_neg hc, ih ht]

theorem splitNl_append_cons_nl (a b : List Char) (h : '\n' ∉ a) :
    splitNl (a ++ '\n' :: b) = a :: splitNl b := by
  induction a with
  | nil => simp [splitNl]
  | cons c t ih =>
    have hc : ¬ c = '\n' := fun he => h (by rw [he]; exact List.mem_cons_self _ _)
    have ht : '\n' ∉ t := fun hm => h (List.mem_cons_of_mem c hm)
    rw [List.cons_append]
    simp only [splitNl, if_neg hc, ih ht]

theorem splitNl_joinNl (xs : List (List Char)) (hne : xs ≠ [])
    (hnl : ∀ x ∈ xs, '\n' ∉ x) : splitNl (joinNl xs) = xs := by
  induction xs with
  | nil => exact absurd rfl hne
  | cons x r ih =>
    cases r with
    | nil =>
      simp only [joinNl]
      exact splitNl_no_nl x (hnl x (List.mem_cons_self x []))
    | cons y ys =>
      have hx : '\n' ∉ x := hnl x (List.mem_cons_self _ _)
      have hr : ∀ z ∈ y :: ys, '\n' ∉ z := fun z hz => hnl z (List.mem_cons_of_mem x hz)
      simp only [joinNl]
      rw [splitNl_append_cons_nl x (joinNl (y :: ys)) hx, ih (by simp) hr]

theorem joinNl_append (xs ys : List (List Char)) (hx : xs ≠ []) (hy : ys ≠ []) :
    joinNl (xs ++ ys) = joinNl xs ++ '\n' :: joinNl ys := by
  induction xs with
  | nil => exact absurd rfl hx
  | cons x r ih =>
    cases r with
    | nil =>
      cases ys with
      | nil => exact absurd rfl hy
      | cons y t => simp [joinNl]
    | cons z zs =>
      have ih' := ih (by simp)
      rw [List.cons_append] at ih'
      simp only [List.cons_append, joinNl, List.append_eq]
      rw [ih']
      simp [List.append_assoc]

theorem stripCR_eq_self (l : List Char) (h : '\r' ∉ l) : stripCR l = l := by
  unfold stripCR
  cases hg : l.getLast? with
  | none => rfl
  | some c =>
    have hc : c ∈ l := getLast?_mem_list hg
    have : ¬ c = '\r' := fun he => h (he ▸ hc)
    simp [this]

theorem stripCR_snoc_not_cr (l : List Char) (c : Char) (hg : l.getLast? = some c)
    (hc : ¬ c = '\r') : stripCR l = l := by
  unfold stripCR
  rw [hg]
  simp [hc]

theorem mapInit_eq_self (f : List Char → List Char) (xs : List (List Char))
    (h : ∀ x ∈ xs, f x = x) : mapInit f xs = xs := by
  induction xs with
  | nil => rfl
  | cons x r ih =>
    cases r with
    | nil => rfl
    | cons y ys =>
      simp only [mapInit]
      rw [h x (List.mem_cons_self _ _), ih (fun z hz => h z (List.mem_cons_of_mem x hz))]

theorem rustLines_eq_splitNl (s : List Char)
    (hid : ∀ x ∈ splitNl s, stripCR x = x)
    (hlast : (splitNl s).getLast? ≠ some []) : rustLines s = splitNl s := by
  unfold rustLines
  cases hg : (splitNl s).getLast? with
  | none => simp only []; exact mapInit_eq_self stripCR _ hid
  | some x =>
    cases hx : x with
    | nil => rw [hx] at hg; exact absurd hg hlast
    | cons c t =>
      simp only []
      exact mapInit_eq_self stripCR _ hid

theorem splitNl_cons (a : Char) (t : List Char) :
    splitNl (a :: t) = if a = '\n' then [] :: splitNl t
      else match splitNl t with
        | [] => [[a]]
        | h :: rest => (a :: h) :: rest := rfl

theorem splitNl_getLast_ne_nil (s : List Char) (c : Char)
    (hg : s.getLast? = some c) (hc : ¬ c = '\n') :
    (splitNl s).getLast? ≠ some [] := by
  induction s with
  | nil => simp at hg
  | cons a t ih =>
    cases t with
    | nil =>
      simp at hg
      subst hg
      rw [splitNl_cons, if_neg hc]
      simp [splitNl]
    | cons b u =>
      rw [List.getLast?_cons_cons] at hg
      have iha := ih hg
      cases hs : splitNl (b :: u) with
      | nil => exact absurd hs (splitNl_ne_nil _)
      | cons h r =>
        rw [hs] at iha
        rw [splitNl_cons, hs]
        by_cases ha : a = '\n'
        · rw [if_pos ha]
          simpa using iha
        · rw [if_neg ha]
          cases r with
          | nil => simp
          | cons y ys =>
            show ((a :: h) :: y :: ys).getLast? ≠ some []
            simpa using iha

theorem dbline_getLast_not_ws (url : List Char)
    (huw : ∀ c, url.getLast? = some c → rustIsWS c = false) :
    ∀ c, (dbKey ++ url).getLast? = some c → rustIsWS c = false := by
  intro c hc
  rw [List.getLast?_append] at hc
  cases hg : url.getLast? with
  | none =>
    rw [hg] at hc
    simp only [Option.or] at hc
    have hdb : dbKey.getLast? = some '=' := by decide
    rw [hdb] at hc
    have : c = '=' := (Option.some_inj.mp hc).symm
    rw [this]
    decide
  | some d =>
    rw [hg] at hc
    simp only [Option.or] at hc
    have : c = d := (Option.some_inj.mp hc).symm
    rw [this]
    exact huw d hg

theorem dbline_ne_nil (url : List Char) : dbKey ++ url ≠ [] := by
  intro h
  have hlen := congrArg List.length h
  rw [List.length_append] at hlen
  have hk : dbKey.length = 13 := by decide
  rw [hk, List.length_nil] at hlen
  omega

theorem rustTrim_dbline (url : List Char)
    (huw : ∀ c, url.getLast? = some c → rustIsWS c = false) :
    rustTrim (dbKey ++ url) = dbKey ++ url := by
  have h1 : dropWS (dbKey ++ url).reverse = (dbKey ++ url).reverse := by
    refine dropWS_eq_self_of_head _ ?_
    intro c hc
    rw [List.head?_reverse] at hc
    exact dbline_getLast_not_ws url huw c hc
  unfold rustTrim
  rw [h1, List.reverse_reverse]
  refine dropWS_eq_self_of_head _ ?_
  intro c hc
  have hdb : dbKey = 'D' :: "ATABASE_URL=".data := by decide
  rw [hdb, List.cons_append] at hc
  simp at hc
  rw [← hc]
  decide

theorem stripCR_dbline (url : List Char)
    (huw : ∀ c, url.getLast? = some c → rustIsWS c = false) :
    stripCR (dbKey ++ url) = dbKey ++ url := by
  cases hg : (dbKey ++ url).getLast? with
  | none => exact absurd (List.getLast?_eq_none.mp hg) (dbline_ne_nil url)
  | some c =>
    refine stripCR_snoc_not_cr _ c hg ?_
    intro he
    have := dbline_getLast_not_ws url huw c hg
    rw [he] at this
    exact absurd this (by decide)

theorem findDbLine_append_skip (xs ys : List (List Char))
    (h : ∀ l ∈ xs, headMatch dbKey (rustTrim l) = false) :
    findDbLine (xs ++ ys) = findDbLine ys := by
  induction xs with
  | nil => rfl
  | cons x r ih =>
    have hx := h x (List.mem_cons_self _ _)
    rw [List.cons_append]
    simp only [findDbLine, hx]
    simp only [Bool.false_eq_true, if_false]
    exact ih fun l hl => h l (List.mem_cons_of_mem x hl)

theorem findDbLine_cons_found (l : List Char) (rest : List (List Char))
    (h : headMatch dbKey (rustTrim l) = true) :
    findDbLine (l :: rest) = some ⟨trimStartMatches dbKey (rustTrim l)⟩ := by
  simp only [findDbLine, h]
  simp

theorem findDbLine_map_repl (url : List Char)
    (hw : rustTrim (dbKey ++ url) = dbKey ++ url)
    (hud : headMatch dbKey url = false) :
    ∀ lines : List (List Char),
      lines.any (fun l => headMatch dbKey (rustTrim l)) = true →
      findDbLine (lines.map (fun l =>
        if headMatch dbKey (rustTrim l) then dbKey ++ url else l)) = some ⟨url⟩ := by
  intro lines
  induction lines with
  | nil => intro h; simp at h
  | cons l rest ih =>
    intro hany
    by_cases hl : headMatch dbKey (rustTrim l) = true
    · rw [List.map_cons, if_pos hl]
      rw [findDbLine_cons_found _ _ (by rw [hw]; exact headMatch_append_self dbKey url)]
      rw [hw, trimStartMatches_append dbKey url (by decide) hud]
    · have hl' : headMatch dbKey (rustTrim l) = false := by
        cases hb : headMatch dbKey (rustTrim l) with
        | false => rfl
        | true => exact absurd hb hl
      rw [List.any_cons, hl', Bool.false_or] at hany
      rw [List.map_cons, if_neg hl]
      simp only [findDbLine, hl']
      simp only [Bool.false_eq_true, if_false]
      exact ih hany

theorem rustLines_of_trimmed (s : List Char) (hcr : '\r' ∉ s)
    (hne : s ≠ []) (htr : rustTrim s = s) :
    rustLines s = splitNl s := by
  obtain ⟨c, hg⟩ : ∃ c, s.getLast? = some c := by
    cases hg : s.getLast? with
    | none => exact absurd (List.getLast?_eq_none.mp hg) hne
    | some c => exact ⟨c, rfl⟩
  have hcws := rustTrim_getLast_not_ws s htr c hg
  have hcn : ¬ c = '\n' := fun he => absurd (he ▸ hcws) (by decide)
  refine rustLines_eq_splitNl s ?_ (splitNl_getLast_ne_nil s c hg hcn)
  intro x hx
  refine stripCR_eq_self x ?_
  intro hmem
  exact hcr (mem_splitNl_subset s x hx '\r' hmem)

theorem dbline_no_nl (url : List Char) (hun : '\n' ∉ url) :
    '\n' ∉ dbKey ++ url := by
  intro hm
  rcases List.mem_append.mp hm with h | h
  · exact (by decide : '\n' ∉ dbKey) h
  · exact hun h

theorem written_lines_nofound (content url : String)
    (hcr : '\r' ∉ content.data)
    (hct' : rustTrim content.data = content.data)
    (hun : '\n' ∉ url.data)
    (huw : ∀ c, url.data.getLast? = some c → rustIsWS c = false)
    (hf : ((rustLines content.data).any (fun l => headMatch dbKey (rustTrim l))) = false) :
    rustLines (write_database_url (some content) url).data
      = splitNl content.data ++ [[], dbComment, dbKey ++ url.data] := by
  have hwrite : write_database_url (some content) url
      = ⟨rustTrim content.data ++ ('\n' :: '\n' :: dbComment)
          ++ ('\n' :: (dbKey ++ url.data))⟩ := by
    simp only [write_database_url, hf]
    simp
  have hwdata : (write_database_url (some content) url).data
      = content.data ++ ('\n' :: '\n' :: (dbComment ++ '\n' :: (dbKey ++ url.data))) := by
    rw [hwrite]
    show rustTrim content.data ++ ('\n' :: '\n' :: dbComment)
        ++ ('\n' :: (dbKey ++ url.data)) = _
    rw [hct']
    simp [List.append_assoc]
  have hjoin : joinNl (splitNl content.data ++ [[], dbComment, dbKey ++ url.data])
      = content.data ++ ('\n' :: '\n' :: (dbComment ++ '\n' :: (dbKey ++ url.data))) := by
    rw [joinNl_append _ _ (splitNl_ne_nil _) (by simp), joinNl_splitNl]
    simp [joinNl]
  have hsplit : splitNl (write_database_url (some content) url).data
      = splitNl content.data ++ [[], dbComment, dbKey ++ url.data] := by
    rw [hwdata, ← hjoin]
    refine splitNl_joinNl _ (by simp) ?_
    intro x hx
    rcases List.mem_append.mp hx with h | h
    · exact mem_splitNl_no_nl content.data x h
    · simp at h
      rcases h with h | h | h
      · simp [h]
      · rw [h]; decide
      · rw [h]; exact dbline_no_nl url.data hun
  have hid : ∀ x ∈ splitNl (write_database_url (some content) url).data, stripCR x = x := by
    rw [hsplit]
    intro x hx
    rcases List.mem_append.mp hx with h | h
    · refine stripCR_eq_self x ?_
      intro hm
      exact hcr (mem_splitNl_subset content.data x h '\r' hm)
    · simp at h
      rcases h with h | h | h
      · rw [h]; rfl
      · rw [h]; decide
      · rw [h]; exact stripCR_dbline url.data huw
  have hlast : (splitNl (write_database_url (some content) url).data).getLast? ≠ some [] := by
    rw [hsplit, List.getLast?_append]
    have hl3 : ([[], dbComment, dbKey ++ url.data] : List (List Char)).getLast?
        = some (dbKey ++ url.data) := rfl
    rw [hl3]
    simp only [Option.or]
    intro h
    exact dbline_ne_nil url.data (Option.some_inj.mp h)
  exact (rustLines_eq_splitNl _ hid hlast).trans hsplit

theorem written_lines_found (content url : String)
    (hcr : '\r' ∉ content.data)
    (hct' : rustTrim content.data = content.data)
    (hun : '\n' ∉ url.data)
    (huw : ∀ c, url.data.getLast? = some c → rustIsWS c = false)
    (hne : content.data ≠ [])
    (hf : ((rustLines content.data).any (fun l => headMatch dbKey (rustTrim l))) = true) :
    rustLines (write_database_url (some content) url).data
      = (splitNl content.data).map (fun l =>
          if headMatch dbKey (rustTrim l) then dbKey ++ url.data else l) := by
  have hlines : rustLines content.data = splitNl content.data :=
    rustLines_of_trimmed content.data hcr hne hct'
  have hwrite : write_database_url (some content) url
      = ⟨joinNl ((splitNl content.data).map (fun l =>
          if headMatch dbKey (rustTrim l) then dbKey ++ url.data else l))⟩ := by
    simp only [write_database_url, hf]
    rw [hlines]
    simp
  have hmnl : ∀ x ∈ (splitNl content.data).map (fun l =>
      if headMatch dbKey (rustTrim l) then dbKey ++ url.data else l), '\n' ∉ x := by
    intro x hx
    rcases List.mem_map.mp hx with ⟨l, hl, hlx⟩
    by_cases hp : headMatch dbKey (rustTrim l) = true
    · rw [if_pos hp] at hlx
      rw [← hlx]
      exact dbline_no_nl url.data hun
    · rw [if_neg hp] at hlx
      rw [← hlx]
      exact mem_splitNl_no_nl content.data l hl
  have hmne : (splitNl content.data).map (fun l =>
      if headMatch dbKey (rustTrim l) then dbKey ++ url.data else l) ≠ [] := by
    rw [Ne, List.map_eq_nil]
    exact splitNl_ne_nil content.data
  have hsplit : splitNl (write_database_url (some content) url).data
      = (splitNl content.data).map (fun l =>
          if headMatch dbKey (rustTrim l) then dbKey ++ url.data else l) := by
    rw [hwrite]
    exact splitNl_joinNl _ hmne hmnl
  obtain ⟨c, hgc⟩ : ∃ c, content.data.getLast? = some c := by
    cases hg : content.data.getLast? with
    | none => exact absurd (List.getLast?_eq_none.mp hg) hne
    | some c => exact ⟨c, rfl⟩
  have hcws := rustTrim_getLast_not_ws content.data hct' c hgc
  have hcn : ¬ c = '\n' := fun he => absurd (he ▸ hcws) (by decide)
  have hplast := splitNl_getLast_ne_nil content.data c hgc hcn
  obtain ⟨lp, hpg⟩ : ∃ lp, (splitNl content.data).getLast? = some lp := by
    cases hg : (splitNl content.data).getLast? with
    | none => exact absurd (List.getLast?_eq_none.mp hg) (splitNl_ne_nil _)
    | some lp => exact ⟨lp, rfl⟩
  have hlpne : lp ≠ [] := by
    intro h
    rw [h] at hpg
    exact hplast hpg
  have hmlast : (splitNl (write_database_url (some content) url).data).getLast? ≠ some [] := by
    rw [hsplit, List.getLast?_map, hpg]
    simp only [Option.map]
    intro h
    have := Option.some_inj.mp h
    by_cases hp : headMatch dbKey (rustTrim lp) = true
    · rw [if_pos hp] at this
      exact dbline_ne_nil url.data this
    · rw [if_neg hp] at this
      exact hlpne this
  have hid : ∀ x ∈ splitNl (write_database_url (some content) url).data, stripCR x = x := by
    rw [hsplit]
    intro x hx
    rcases List.mem_map.mp hx with ⟨l, hl, hlx⟩
    by_cases hp : headMatch dbKey (rustTrim l) = true
    · rw [if_pos hp] at hlx
      rw [← hlx]
      exact stripCR_dbline url.data huw
    · rw [if_neg hp] at hlx
      rw [← hlx]
      refine stripCR_eq_self l ?_
      intro hm
      exact hcr (mem_splitNl_subset content.data l hl '\r' hm)
  exact (rustLines_eq_splitNl _ hid hmlast).trans hsplit

/-- Counterexample for C9: for the newline-free url `"DATABASE_URL=x"`,
writing and re-reading does not return the url — `trim_start_matches`
strips the repeated `DATABASE_URL=` prefix, so the read yields `"x"`. -/
theorem c9_counterexample :
    read_database_url (some (write_database_url (some "A=1") "DATABASE_URL=x"))
      ≠ some "DATABASE_URL=x"
    ∧ read_database_url (some (write_database_url (some "A=1") "DATABASE_URL=x"))
      = some "x" := ⟨by decide, by decide⟩

/-- Claim C9 (amended): for an existing `.env` content with no carriage
returns and no leading/trailing whitespace, and a newline-free url that
does not end in whitespace and does not itself start with
`DATABASE_URL=`, `write_database_url` rewrites only the `DATABASE_URL`
entry: every line not defining that key reappears verbatim in the
written file, a subsequent `read_database_url` returns `some url`, and
`read_database_url` returns `none` when no `.env` file exists. -/
theorem c9_env_rewrite (content url : String)
    (hcr : '\r' ∉ content.data)
    (hct : strTrim content = content)
    (hun : '\n' ∉ url.data)
    (huw : ∀ c, url.data.getLast? = some c → rustIsWS c = false)
    (hud : headMatch dbKey url.data = false) :
    (∀ l ∈ rustLines content.data,
        headMatch dbKey (rustTrim l) = false →
        l ∈ rustLines (write_database_url (some content) url).data)
    ∧ read_database_url (some (write_database_url (some content) url)) = some url
    ∧ read_database_url (none : Option String) = none := by
  have hct' : rustTrim content.data = content.data := congrArg String.data hct
  have hLtrim := rustTrim_dbline url.data huw
  have hkne : dbKey ≠ ([] : List Char) := by decide
  by_cases hf : ((rustLines content.data).any (fun l => headMatch dbKey (rustTrim l))) = true
  · have hne : content.data ≠ [] := by
      intro h0
      rw [h0, show rustLines ([] : List Char) = [] from rfl] at hf
      simp at hf
    have hW := written_lines_found content url hcr hct' hun huw hne hf
    have hlines : rustLines content.data = splitNl content.data :=
      rustLines_of_trimmed content.data hcr hne hct'
    refine ⟨?_, ?_, rfl⟩
    · intro l hl hno
      rw [hW]
      rw [hlines] at hl
      exact List.mem_map.mpr ⟨l, hl, by rw [if_neg (by simp [hno])]⟩
    · simp only [read_database_url]
      rw [hW]
      rw [hlines] at hf
      rw [findDbLine_map_repl url.data hLtrim hud (splitNl content.data) hf]
  · have hf' : ((rustLines content.data).any (fun l => headMatch dbKey (rustTrim l))) = false := by
      cases hb : ((rustLines content.data).any (fun l => headMatch dbKey (rustTrim l))) with
      | false => rfl
      | true => exact absurd hb hf
    have hW := written_lines_nofound content url hcr hct' hun huw hf'
    have hnomatch : ∀ l ∈ splitNl content.data, headMatch dbKey (rustTrim l) = false := by
      intro l hl
      by_cases hc0 : content.data = []
      · rw [hc0, show splitNl ([] : List Char) = [[]] from rfl] at hl
        simp at hl
        rw [hl]
        decide
      · rw [← rustLines_of_trimmed content.data hcr hc0 hct'] at hl
        have hnot := List.any_eq_false.mp hf' l hl
        cases hb : headMatch dbKey (rustTrim l) with
        | false => rfl
        | true => exact absurd hb hnot
    refine ⟨?_, ?_, rfl⟩
    · intro l hl hno
      rw [hW]
      refine List.mem_append_left _ ?_
      by_cases hc0 : content.data = []
      · rw [hc0, show rustLines ([] : List Char) = [] from rfl] at hl
        exact absurd hl (List.not_mem_nil l)
      · rw [rustLines_of_trimmed content.data hcr hc0 hct'] at hl
        exact hl
    · simp only [read_database_url]
      rw [hW, findDbLine_append_skip _ _ hnomatch]
      have h1 : headMatch dbKey (rustTrim ([] : List Char)) = false := by decide
      have h2 : headMatch dbKey (rustTrim dbComment) = false := by decide
      have hstep : ∀ (x : List Char) (ys : List (List Char)),
          headMatch dbKey (rustTrim x) = false → findDbLine (x :: ys) = findDbLine ys := by
        intro x ys hx
        simp only [findDbLine, hx]
        simp
      rw [hstep _ _ h1, hstep _ _ h2,
        findDbLine_cons_found _ _ (by rw [hLtrim]; exact headMatch_append_self _ _),
        hLtrim, trimStartMatches_append dbKey url.data hkne hud]

/-- Witness for C9 (amended) at a concrete two-line `.env` content and a
concrete url. -/
theorem c9_env_rewrite_witness :
    ('\r' ∉ ("FOO=1\nDATABASE_URL=old" : String).data)
    ∧ strTrim "FOO=1\nDATABASE_URL=old" = "FOO=1\nDATABASE_URL=old"
    ∧ ('\n' ∉ ("postgres://u" : String).data)
    ∧ ("postgres://u" : String).data.getLast? = some 'u'
    ∧ rustIsWS 'u' = false
    ∧ headMatch dbKey ("postgres://u" : String).data = false
    ∧ ((∀ l ∈ rustLines ("FOO=1\nDATABASE_URL=old" : String).data,
          headMatch dbKey (rustTrim l) = false →
          l ∈ rustLines
            (write_database_url (some "FOO=1\nDATABASE_URL=old") "postgres://u").data)
      ∧ read_database_url
          (some (write_database_url (some "FOO=1\nDATABASE_URL=old") "postgres://u"))
          = some "postgres://u"
      ∧ read_database_url (none : Option String) = none) := by
  refine ⟨by decide, by decide, by decide, by decide, by decide, by decide, ?_⟩
  refine c9_env_rewrite "FOO=1\nDATABASE_URL=old" "postgres://u"
    (by decide) (by decide) (by decide) ?_ (by decide)
  intro c hc
  rw [show ("postgres://u" : String).data.getLast? = some 'u' from by decide] at hc
  rw [← Option.some_inj.mp hc]
  decide
